import Mathlib

/-!
Verification of the job-pipeline repository.

Part 1: shallow embedding of the pipeline executor (src/unnamed/part_001,
the Job class).  JavaScript is dynamically typed; the executor inspects its
data only through truthiness tests, Array.isArray, and array spreading, all
of which look one array level deep.  We therefore model a JavaScript value
as either a primitive or an array of elements of an opaque type.
Numbers are modelled as integers (no floats appear in the claims).
-/

set_option autoImplicit false

/-- A primitive JavaScript value (no nested structure inspected by the code). -/
inductive JSPrim where
  | jnull
  | jundef
  | jbool (b : Bool)
  | jnum (n : Int)
  | jstr (s : List Char)
  deriving DecidableEq, Repr

/-- JavaScript truthiness of a primitive: null, undefined, false, 0 and the
empty string are falsy. -/
def JSPrim.truthy : JSPrim → Bool
  | .jnull => false
  | .jundef => false
  | .jbool b => b
  | .jnum n => decide (n ≠ 0)
  | .jstr s => decide (s ≠ [])

/-- A JavaScript value as seen by the executor: a primitive or an array whose
elements come from an opaque type α. -/
inductive JSVal (α : Type) where
  | prim (p : JSPrim)
  | arr (l : List α)
  deriving DecidableEq, Repr

/-- JavaScript truthiness: arrays (even empty ones) are truthy. -/
def JSVal.truthy {α : Type} : JSVal α → Bool
  | .prim p => p.truthy
  | .arr _ => true

namespace Job

/-- Embedding of Job.run: execute the initializer, then thread the data value
through the registered steps in order; a step error aborts the run
(src/unnamed/part_001, lines 103-115). -/
def run {σ δ : Type} (init : σ → δ) (steps : List (δ → σ → Except (List Char) δ))
    (st : σ) : Except (List Char) δ :=
  steps.foldlM (fun d step => step d st) (init st)

/-- Body of the loop of the step pushed by Job.pipeEach: apply the step to every
element in source order, collecting all results (src/unnamed/part_001,
lines 63-72).  The JavaScript for..in loop over a dense array yields its
indices in source order; the index accumulator mirrors it. -/
def pipeEachGo {σ I R : Type} (f : I → σ → Nat → R) (st : σ) : List I → Nat → List R
  | [], _ => []
  | x :: xs, i => f x st i :: pipeEachGo f st xs (i + 1)

/-- The step pushed by Job.pipeEach, as a function of the incoming data. -/
def pipeEach {σ I R : Type} (f : I → σ → Nat → R) (data : List I) (st : σ) : List R :=
  pipeEachGo f st data 0

/-- Body of the loop of the step pushed by Job.pipeEachFiltered: as pipeEach,
but a falsy result is not pushed (src/unnamed/part_001, lines 74-86). -/
def pipeEachFilteredGo {σ I α : Type} (f : I → σ → Nat → JSVal α) (st : σ) :
    List I → Nat → List (JSVal α)
  | [], _ => []
  | x :: xs, i =>
    let r := f x st i
    if r.truthy then r :: pipeEachFilteredGo f st xs (i + 1)
    else pipeEachFilteredGo f st xs (i + 1)

/-- The step pushed by Job.pipeEachFiltered, as a function of the incoming data. -/
def pipeEachFiltered {σ I α : Type} (f : I → σ → Nat → JSVal α) (data : List I)
    (st : σ) : List (JSVal α) :=
  pipeEachFilteredGo f st data 0

/-- The spreading of a slice result done by Job.pipeSliced: a result that is an
array contributes its elements; any other result contributes nothing
(src/unnamed/part_001, lines 54-56: results.push(...result) guarded by
result and Array.isArray(result); arrays are always truthy). -/
def arrElems {α : Type} : JSVal α → List α
  | .arr l => l
  | .prim _ => []

/-- Loop of the step pushed by Job.pipeSliced, with slice size k+1: walk the
sequence in fixed-size non-overlapping windows in source order, apply f to
each window together with its start offset, and concatenate the spread
results (src/unnamed/part_001, lines 51-57).  The fuel argument (first)
makes the recursion structural; it is always instantiated with the length
of the list, which bounds the number of iterations since every iteration
consumes at least one element. -/
def pipeSlicedGo {σ α : Type} (f : List α → Nat → σ → JSVal α) (st : σ) (k : Nat) :
    Nat → List α → Nat → List α
  | _, [], _ => []
  | 0, _ :: _, _ => []
  | fuel + 1, x :: xs, i =>
    arrElems (f ((x :: xs).take (k + 1)) i st) ++
      pipeSlicedGo f st k fuel (xs.drop k) (i + (k + 1))

/-- The step pushed by Job.pipeSliced with slice size sliceSize: data that is
not an array raises the error of line 49; otherwise the windows of the
array are processed in order.  The model is defined for positive slice
sizes (the source loop does not advance, hence diverges, at slice size 0);
internally the slice size is represented as k+1 with k = sliceSize - 1. -/
def pipeSliced {σ α : Type} (f : List α → Nat → σ → JSVal α) (sliceSize : Nat)
    (data : JSVal α) (st : σ) : Except (List Char) (JSVal α) :=
  match data with
  | .arr l => .ok (.arr (pipeSlicedGo f st (sliceSize - 1) l.length l 0))
  | .prim _ => .error ("Data is not an array".toList)

/-- The decomposition of a sequence into the windows (with start offsets) that
pipeSliced with slice size k+1 presents to its step, in source order. -/
def chunksOff {α : Type} (k : Nat) : Nat → List α → Nat → List (List α × Nat)
  | _, [], _ => []
  | 0, _ :: _, _ => []
  | fuel + 1, x :: xs, i =>
    ((x :: xs).take (k + 1), i) :: chunksOff k fuel (xs.drop k) (i + (k + 1))

end Job

section PipelineLemmas

variable {σ α β I : Type}

theorem pipeEachGo_length (f : I → σ → Nat → β) (st : σ) :
    ∀ (S : List I) (i : Nat), (Job.pipeEachGo f st S i).length = S.length := by
  intro S
  induction S with
  | nil => intro i; rfl
  | cons x xs ih => intro i; simp [Job.pipeEachGo, ih]

theorem pipeEachFilteredGo_eq_go_of_truthy (f : I → σ → Nat → JSVal α) (st : σ) :
    ∀ (S : List I) (i : Nat), (∀ x ∈ S, ∀ j : Nat, (f x st j).truthy = true) →
      Job.pipeEachFilteredGo f st S i = Job.pipeEachGo f st S i := by
  intro S
  induction S with
  | nil => intro i _; rfl
  | cons x xs ih =>
    intro i h
    have hx : (f x st i).truthy = true := h x (by simp) i
    simp only [Job.pipeEachFilteredGo, Job.pipeEachGo, hx, if_true]
    exact congrArg _ (ih (i + 1) (fun y hy j => h y (by simp [hy]) j))

theorem pipeEachFilteredGo_falsy (f : I → σ → Nat → JSVal α) (st : σ) :
    ∀ (S : List I) (i : Nat), (∀ x ∈ S, ∀ j : Nat, (f x st j).truthy = false) →
      Job.pipeEachFilteredGo f st S i = [] := by
  intro S
  induction S with
  | nil => intro i _; rfl
  | cons x xs ih =>
    intro i h
    have hx : (f x st i).truthy = false := h x (by simp) i
    simp only [Job.pipeEachFilteredGo, hx, if_false, Bool.false_eq_true]
    exact ih (i + 1) (fun y hy j => h y (by simp [hy]) j)

theorem pipeSlicedGo_eq_chunks (f : List α → Nat → σ → JSVal α) (st : σ) (k : Nat) :
    ∀ (fuel : Nat) (S : List α) (i : Nat), S.length ≤ fuel →
      Job.pipeSlicedGo f st k fuel S i =
        (Job.chunksOff k fuel S i).flatMap (fun w => Job.arrElems (f w.1 w.2 st)) := by
  intro fuel
  induction fuel with
  | zero =>
    intro S i h
    match S with
    | [] => rfl
    | x :: xs => simp at h
  | succ n ih =>
    intro S i h
    match S with
    | [] => rfl
    | x :: xs =>
      simp only [Job.pipeSlicedGo, Job.chunksOff, List.flatMap_cons]
      refine congrArg _ (ih _ _ ?_)
      have : (xs.drop k).length = xs.length - k := List.length_drop k xs
      simp only [List.length_cons] at h
      omega

theorem chunksOff_flatMap_fst (k : Nat) :
    ∀ (fuel : Nat) (S : List α) (i : Nat), S.length ≤ fuel →
      (Job.chunksOff k fuel S i).flatMap (fun w => w.1) = S := by
  intro fuel
  induction fuel with
  | zero =>
    intro S i h
    match S with
    | [] => rfl
    | x :: xs => simp at h
  | succ n ih =>
    intro S i h
    match S with
    | [] => rfl
    | x :: xs =>
      simp only [Job.chunksOff, List.flatMap_cons]
      have hdrop : (x :: xs).drop (k + 1) = xs.drop k := by simp
      calc (x :: xs).take (k + 1) ++
            (Job.chunksOff k n (xs.drop k) (i + (k + 1))).flatMap (fun w => w.1)
          = (x :: xs).take (k + 1) ++ xs.drop k := by
            refine congrArg _ (ih _ _ ?_)
            have : (xs.drop k).length = xs.length - k := List.length_drop k xs
            simp only [List.length_cons] at h
            omega
        _ = (x :: xs).take (k + 1) ++ (x :: xs).drop (k + 1) := by rw [hdrop]
        _ = x :: xs := List.take_append_drop _ _

end PipelineLemmas

/-!
Part 2: strings, decimal numerals and filenames.

Strings are modelled as lists of characters.  The renderer natDecimal models
the JavaScript String(n) conversion of a non-negative integer; padNumber is
the zero-padding used for artifact filenames.
-/

/-- Abbreviation for the model of a JavaScript string. -/
abbrev Str := List Char

/-- Numeric value of a decimal digit character. -/
def charVal (c : Char) : Nat := c.toNat - 48

/-- Value of a string of decimal digits, as computed by parseInt on a string
of digits (most significant first). -/
def digitsToNat (ds : Str) : Nat := ds.foldl (fun a c => a * 10 + charVal c) 0

/-- Decimal rendering of a natural number, with explicit fuel to keep the
recursion structural; fuel n+1 suffices for input n. -/
def natDecimalAux : Nat → Nat → Str
  | 0, _ => []
  | fuel + 1, n =>
    if n < 10 then [Nat.digitChar n]
    else natDecimalAux fuel (n / 10) ++ [Nat.digitChar (n % 10)]

/-- Model of the JavaScript String(n) conversion for a non-negative number. -/
def natDecimal (n : Nat) : Str := natDecimalAux (n + 1) n

/-- Zero-padded five-digit sequence number.  Modelled from the spec: padNumber
is imported from a utils module that is not part of src/; spec 4.3 calls for
a fixed-width zero-padded decimal string and the spec's examples (and the
sibling command loops in src/jobs/search-n-save/index.ts, which inline
String(n).padStart(5, an ASCII zero)) fix the width at five. -/
def padNumber (n : Nat) : Str :=
  List.replicate (5 - (natDecimal n).length) '0' ++ natDecimal n

/-- Exact-prefix stripping: returns the remainder of the second list after the
first, or none if the first list is not an initial run of the second. -/
def dropExact : Str → Str → Option Str
  | [], rest => some rest
  | _ :: _, [] => none
  | p :: ps, c :: cs => if c = p then dropExact ps cs else none

/-- The filename test and numeric extraction applied by getLastResultFileNumber
to each directory entry (src/jobs/search-n-save/state.ts, lines 198-203):
the anchored pattern result-(digits).txt with a non-empty digit group,
followed by parseInt of the group. -/
def matchResultFile (name : Str) : Option Nat :=
  match dropExact ("result-".toList) name with
  | none => none
  | some rest =>
    let ds := rest.take (rest.length - 4)
    let suffix := rest.drop (rest.length - 4)
    if suffix = ".txt".toList ∧ ds ≠ [] ∧ ds.all Char.isDigit then some (digitsToNat ds)
    else none

/-- The filename test and numeric extraction applied by getLastImageNumber to
each directory entry (src/jobs/search-n-save/state.ts, lines 162-167): the
pattern of a leading non-empty digit group followed by a dot. -/
def matchImageFile (name : Str) : Option Nat :=
  let ds := name.takeWhile Char.isDigit
  if ds ≠ [] ∧ (name.dropWhile Char.isDigit).head? = some '.' then some (digitsToNat ds)
  else none

/-- Embedding of getLastResultFileNumber over the list of filenames present in
the data directory (src/jobs/search-n-save/state.ts, lines 185-219): 0 for
an empty directory, 0 when no filename matches, otherwise one past the
maximum extracted number. -/
def getLastResultFileNumber (files : List Str) : Nat :=
  if files = [] then 0
  else
    let numbers := files.filterMap matchResultFile
    if numbers = [] then 0
    else numbers.foldl Nat.max 0 + 1

/-- Embedding of getLastImageNumber over the list of filenames present in the
images directory (src/jobs/search-n-save/state.ts, lines 152-183). -/
def getLastImageNumber (files : List Str) : Nat :=
  if files = [] then 0
  else
    let numbers := files.filterMap matchImageFile
    if numbers = [] then 0
    else numbers.foldl Nat.max 0 + 1

/-- Splitting a string at every occurrence of a separator character, as
JavaScript split does (n separators yield n+1 fields, possibly empty). -/
def splitOnChar (sep : Char) : Str → List Str
  | [] => [[]]
  | c :: cs =>
    match splitOnChar sep cs with
    | [] => [[c]]
    | h :: t => if c = sep then [] :: h :: t else (c :: h) :: t

/-- JavaScript whitespace test for trim (the characters relevant here). -/
def isWS (c : Char) : Bool := c = ' ' ∨ c = '\t' ∨ c = '\n' ∨ c = '\r'

/-- Model of the JavaScript String.trim. -/
def trim (s : Str) : Str :=
  ((s.dropWhile isWS).reverse.dropWhile isWS).reverse

/-- The non-blank lines of a file body, as computed by the command loop:
split on the newline character, drop lines that trim to the empty string
(src/jobs/search-n-save/index.ts, lines 421-424). -/
def nonBlankLines (s : Str) : List Str :=
  (splitOnChar '\n' s).filter (fun l => !(trim l).isEmpty)

/-- First line of a file body: split-on-newline, first field. -/
def firstLineOf (s : Str) : Str := s.takeWhile (fun c => !(c = '\n' : Bool))

/-!
Part 3: the filesystem model and the persistence helpers of src/utils/file.ts.

The structured-storage collaborator is modelled as an association list from
paths to file bodies; the first binding for a path is its current content.
Path resolution (getSavePath, getOutputPath) always lands on the same
absolute location for the same argument, so paths are kept abstract as the
strings the code builds.
-/

/-- The filesystem: an association list from paths to contents. -/
abbrev FS := List (Str × Str)

/-- Current content of a path, if the file exists. -/
def fsLookup (fs : FS) (p : Str) : Option Str :=
  (fs.find? (fun e => e.1 == p)).map (fun e => e.2)

/-- Remove every binding of a path (the unlink operation). -/
def fsErase (fs : FS) (p : Str) : FS :=
  fs.filter (fun e => !(e.1 == p))

/-- Create-or-overwrite write of a file. -/
def fsWrite (fs : FS) (p c : Str) : FS :=
  (p, c) :: fsErase fs p

/-- Append to a file, creating it when missing (fs.appendFile). -/
def fsAppend (fs : FS) (p c : Str) : FS :=
  match fsLookup fs p with
  | some old => fsWrite fs p (old ++ c)
  | none => fsWrite fs p c

/-- Whether a path exists. -/
def fsExists (fs : FS) (p : Str) : Bool :=
  (fsLookup fs p).isSome

/-- Escaping of one character under JSON.stringify (the characters that can
occur in the inputs considered here). -/
def jsonEscapeChar (c : Char) : Str :=
  if c = '"' then ['\\', '"']
  else if c = '\\' then ['\\', '\\']
  else if c = '\n' then ['\\', 'n']
  else if c = '\t' then ['\\', 't']
  else if c = '\r' then ['\\', 'r']
  else [c]

/-- A JSON string literal for s. -/
def jsonQuote (s : Str) : Str :=
  '"' :: (s.flatMap jsonEscapeChar ++ ['"'])

/-- JSON.stringify of an array of strings with indentation argument 2, the
serialization performed by saveToTXT on non-string data: an empty array
prints as a bracket pair, a non-empty one as one two-space-indented quoted
string per line. -/
def jsonStringifyStrList : List Str → Str
  | [] => "[]".toList
  | l :: ls =>
    '[' :: '\n' ::
      (List.intercalate (",\n".toList)
        ((l :: ls).map (fun s => ' ' :: ' ' :: jsonQuote s)) ++ ['\n', ']'])

/-- The data argument of saveToTXT: a string is written as is, anything else
is JSON-stringified; the command loop passes it a string array on undo
(src/utils/file.ts, lines 71-81). -/
def saveToTXTData : Str ⊕ List Str → Str
  | .inl s => s
  | .inr ls => jsonStringifyStrList ls

/-- Embedding of saveToTXT: resolve the path (identity on the already-resolved
paths used here), then overwrite the file with the rendered data. -/
def saveToTXT (fs : FS) (data : Str ⊕ List Str) (p : Str) : FS :=
  fsWrite fs p (saveToTXTData data)

/-!
Part 4: the search-n-save capture session (src/jobs/search-n-save/index.ts,
command-loop variant with URL-verified undo; src/unnamed/part_004 image-mode
undo; src/jobs/search-n-save/state.ts).
-/

/-- The session fields the save and undo command branches read and write. -/
structure SnSState where
  savedLinks : List Str
  savedLinkCount : Nat
  dataDir : Str
  deriving DecidableEq, Repr

/-- The path of the links.txt index file.  Modelled from the spec: the helper
getOutputPath is not part of src/; per section 6 it resolves a filename to a
fixed output location, so the index path is kept as an abstract constant. -/
def linksPath : Str := "links.txt".toList

/-- Filename of the text artifact with sequence number n. -/
def resultName (n : Nat) : Str :=
  "result-".toList ++ padNumber n ++ ".txt".toList

/-- Full path of the text artifact with sequence number n (path.join of the
data directory and the filename). -/
def resultPath (dir : Str) (n : Nat) : Str :=
  dir ++ '/' :: resultName n

/-- The artifact body written by the save command: a header line with the raw
(unpadded) sequence number and the source URL, a blank line, then the
captured text (src/jobs/search-n-save/index.ts, line 557). -/
def saveContent (n : Nat) (url clip : Str) : Str :=
  "# ".toList ++ natDecimal n ++ ':' :: ' ' :: url ++ '\n' :: '\n' :: clip

/-- Acceptance of an operator-typed replacement number.  Modelled from the
spec: section 4.3 rejects non-numeric or negative input; a trimmed
non-empty run of digits parses to the number it denotes. -/
def parseNatInput (s : Str) : Option Nat :=
  let t := trim s
  if t ≠ [] ∧ t.all Char.isDigit then some (digitsToNat t) else none

/-- The re-prompt loop of the collision handler over the queued operator
inputs.  Modelled from the spec: section 4.3 re-prompts until a valid
replacement number arrives; an exhausted input list means the operator
never supplied one (the loop would still be blocked). -/
def promptLoop (dir : Str) : List Str → Option (Str × Nat)
  | [] => none
  | inp :: rest =>
    match parseNatInput inp with
    | some m => some (resultPath dir m, m)
    | none => promptLoop dir rest

/-- Modelled from the spec: getManualFilePath is imported from a utils module
that is not part of src/.  Per section 4.3 it verifies that the target path
of the current counter value does not already exist, and on collision asks
the operator for a replacement starting number instead of overwriting; it
returns the chosen path together with the number it encodes. -/
def getManualFilePath (fs : FS) (dir : Str) (count : Nat) (inputs : List Str) :
    Option (Str × Nat) :=
  if fsExists fs (resultPath dir count) then promptLoop dir inputs
  else some (resultPath dir count, count)

/-- One write-type I/O action issued by the save command, with the outcome the
I/O oracle assigned to it. -/
inductive IOEvent where
  | write (p c : Str) (ok : Bool)
  | append (p c : Str) (ok : Bool)
  deriving DecidableEq, Repr

/-- Embedding of the save command branch (src/jobs/search-n-save/index.ts,
lines 531-576).  url is the active tab's URL, clip the capture buffer,
inputs the queued operator answers for the collision handler, and
writeOk/appendOk the I/O oracle for the two file operations.  Returns the
session state, the filesystem, and the trace of issued write-type I/O
actions; a thrown I/O error is caught at the command boundary, keeping the
mutations already performed. -/
def saveCmd (st : SnSState) (fs : FS) (url clip : Str) (inputs : List Str)
    (writeOk appendOk : Bool) : SnSState × FS × List IOEvent :=
  if st.savedLinks.contains url then (st, fs, [])
  else if clip = [] ∨ trim clip = [] then (st, fs, [])
  else
    match getManualFilePath fs st.dataDir st.savedLinkCount inputs with
    | none => (st, fs, [])
    | some (p, n) =>
      let st1 : SnSState := { st with savedLinkCount := n }
      let content := saveContent n url clip
      if writeOk = false then (st1, fs, [.write p content false])
      else
        let fs1 := fsWrite fs p content
        if appendOk = false then
          (st1, fs1, [.write p content true, .append linksPath (url ++ ['\n']) false])
        else
          let fs2 := fsAppend fs1 linksPath (url ++ ['\n'])
          let newLinks :=
            if st1.savedLinks.contains url then st1.savedLinks
            else url :: st1.savedLinks
          let st2 : SnSState := { st1 with savedLinks := newLinks, savedLinkCount := n + 1 }
          (st2, fs2, [.write p content true, .append linksPath (url ++ ['\n']) true])

/-- The header parse of the undo safety check (src/jobs/search-n-save/index.ts,
line 455): the anchored pattern of a hash mark, a space, a non-empty digit
run, a colon, a space, and a non-empty captured remainder. -/
def parseHeaderUrl (l : Str) : Option Str :=
  match l with
  | '#' :: ' ' :: rest =>
    let ds := rest.takeWhile Char.isDigit
    match ds, rest.dropWhile Char.isDigit with
    | [], _ => none
    | _ :: _, ':' :: ' ' :: u => if u = [] then none else some u
    | _ :: _, _ => none
  | _ => none

/-- Embedding of the undo command branch (src/jobs/search-n-save/index.ts,
lines 409-478): guard on the counter, read the index file, drop its last
non-blank line and write the remainder back through saveToTXT, remove the
line's URL from the duplicate set, decrement the counter, and delete the
artifact of the decremented number only if its header URL matches the
dropped line. -/
def undoCmd (st : SnSState) (fs : FS) : SnSState × FS :=
  if st.savedLinkCount = 0 then (st, fs)
  else
    match fsLookup fs linksPath with
    | none => (st, fs)
    | some content =>
      let linkLines := nonBlankLines content
      match linkLines.getLast? with
      | none => (st, fs)
      | some lastUrl =>
        let fs1 := saveToTXT fs (.inr linkLines.dropLast) linksPath
        let remaining := st.savedLinks.filter (fun u => !(u == lastUrl))
        let st1 : SnSState :=
          { st with savedLinks := remaining, savedLinkCount := st.savedLinkCount - 1 }
        let target := resultPath st.dataDir (st.savedLinkCount - 1)
        match fsLookup fs1 target with
        | none => (st1, fs1)
        | some fc =>
          match parseHeaderUrl (firstLineOf fc) with
          | some u => if u = lastUrl then (st1, fsErase fs1 target) else (st1, fs1)
          | none => (st1, fs1)

/-- The session fields the image-mode undo branch reads and writes. -/
structure ImgState where
  savedImageCount : Nat
  imagesDir : Str
  imgMetaDir : Str
  deriving DecidableEq, Repr

/-- Path of the metadata file of the most recently saved image. -/
def metaPathOf (st : ImgState) : Str :=
  st.imgMetaDir ++ '/' :: (padNumber (st.savedImageCount - 1) ++ ".txt".toList)

/-- Embedding of the image-mode undo branch (src/unnamed/part_004, lines
81-131): guard on the counter, read the metadata file of the last image,
take the image path from its second line, delete that image file and the
metadata file, and decrement the counter.  No content of the metadata
(source URL, caption, recorded number) is compared against anything before
the deletions. -/
def imageUndoCmd (st : ImgState) (fs : FS) : ImgState × FS :=
  if st.savedImageCount = 0 then (st, fs)
  else
    match fsLookup fs (metaPathOf st) with
    | none => (st, fs)
    | some metaContent =>
      let lines := splitOnChar '\n' metaContent
      if lines.length < 2 then (st, fs)
      else
        let imagePath := trim ((lines.get? 1).getD [])
        match splitOnChar '/' imagePath with
        | _ :: seg :: _ =>
          let imageFilepath := st.imagesDir ++ '/' :: seg
          let fs1 := fsErase fs imageFilepath
          let fs2 := fsErase fs1 (metaPathOf st)
          ({ st with savedImageCount := st.savedImageCount - 1 }, fs2)
        | _ => (st, fs)

/-!
Part 5: tab tracking (src/unnamed/part_002 and the focus/close handlers of
src/jobs/search-n-save/state.ts).

Each operation reads the browser context's current page list afresh; only
activeTabIndex persists in the session, as a JavaScript number (Int).
Foregrounding is a browser side effect outside the model.
-/

namespace TabCtrl

variable {τ : Type}

/-- Embedding of focusNextTab (src/unnamed/part_002, lines 57-70). -/
def focusNextTabM (pages : List τ) (idx : Int) : Int :=
  if pages.length = 0 then idx
  else
    let i1 := idx + 1
    if (pages.length : Int) ≤ i1 then 0 else i1

/-- Embedding of focusPrevTab (src/unnamed/part_002, lines 72-85): note the
source resets to the last index whenever the decremented index is less
than or equal to zero. -/
def focusPrevTabM (pages : List τ) (idx : Int) : Int :=
  if pages.length = 0 then idx
  else
    let i1 := idx - 1
    if i1 ≤ 0 then (pages.length : Int) - 1 else i1

/-- Embedding of the close handler attached to every page
(src/jobs/search-n-save/state.ts, lines 243-259), applied to the page list
as it stands after the removal. -/
def closeHandlerM (pages : List τ) (idx : Int) : Int :=
  if pages.length = 0 then 0
  else if (pages.length : Int) ≤ idx then (pages.length : Int) - 1
  else idx

/-- Embedding of the click-focus binding attached to every page
(src/jobs/search-n-save/state.ts, lines 221-241): the clicked page's
position in the current page list (the list's length when it is absent),
clamped from above to the last index. -/
def clickFocusM [DecidableEq τ] (pages : List τ) (page : τ) : Int :=
  min ((pages.findIdx (fun t => decide (t = page)) : Int)) ((pages.length : Int) - 1)

/-- Embedding of getActiveTab (src/unnamed/part_002, lines 4-40).  focus is the
per-page result of the document.hasFocus probe, with a probe that throws
treated as not focused (the loop continues either way).  An index that is
negative makes the page access yield undefined and the foreground call
throw, which the surrounding catch turns into a null result. -/
def getActiveTabM (focus : τ → Bool) (pages : List τ) (idx : Int) : Int × Option τ :=
  if pages.length = 0 then (idx, none)
  else if idx < (pages.length : Int) then
    if 0 ≤ idx then (idx, pages.get? idx.toNat) else (idx, none)
  else
    match pages.findIdx? focus with
    | some j => ((j : Int), pages.get? j)
    | none => (((pages.length : Int) - 1), pages.get? (pages.length - 1))

/-- The activeTabIndex invariant of the spec: a valid index into the current
tab list, or 0 when the tab list is empty. -/
def validIdx (pages : List τ) (idx : Int) : Prop :=
  (pages = [] ∧ idx = 0) ∨ (0 ≤ idx ∧ idx < (pages.length : Int))

instance (pages : List τ) [DecidableEq τ] (idx : Int) : Decidable (validIdx pages idx) := by
  unfold validIdx; infer_instance

end TabCtrl

/-!
Part 6: lemmas about numerals, filename matching and list maxima.
-/

section NumeralLemmas

theorem charVal_digitChar {d : Nat} (h : d < 10) : charVal (Nat.digitChar d) = d := by
  interval_cases d <;> rfl

theorem isDigit_digitChar {d : Nat} (h : d < 10) : (Nat.digitChar d).isDigit = true := by
  interval_cases d <;> decide

theorem digitsToNat_append_singleton (l : Str) (c : Char) :
    digitsToNat (l ++ [c]) = digitsToNat l * 10 + charVal c := by
  simp [digitsToNat, List.foldl_append]

theorem digitsToNat_natDecimalAux :
    ∀ (fuel n : Nat), n < fuel → digitsToNat (natDecimalAux fuel n) = n := by
  intro fuel
  induction fuel with
  | zero => intro n h; omega
  | succ f ih =>
    intro n h
    by_cases h10 : n < 10
    · simp only [natDecimalAux, if_pos h10]
      have : digitsToNat [Nat.digitChar n] = charVal (Nat.digitChar n) := by
        simp [digitsToNat]
      rw [this, charVal_digitChar h10]
    · simp only [natDecimalAux, if_neg h10]
      rw [digitsToNat_append_singleton, ih (n / 10) (by omega),
        charVal_digitChar (Nat.mod_lt n (by omega))]
      omega

theorem digitsToNat_natDecimal (n : Nat) : digitsToNat (natDecimal n) = n :=
  digitsToNat_natDecimalAux (n + 1) n (Nat.lt_succ_self n)

theorem natDecimalAux_all_digits :
    ∀ (fuel n : Nat), ∀ c ∈ natDecimalAux fuel n, c.isDigit = true := by
  intro fuel
  induction fuel with
  | zero => intro n c hc; simp [natDecimalAux] at hc
  | succ f ih =>
    intro n c hc
    by_cases h10 : n < 10
    · simp only [natDecimalAux, if_pos h10, List.mem_singleton] at hc
      subst hc; exact isDigit_digitChar h10
    · simp only [natDecimalAux, if_neg h10, List.mem_append, List.mem_singleton] at hc
      rcases hc with hc | hc
      · exact ih _ c hc
      · subst hc; exact isDigit_digitChar (Nat.mod_lt n (by omega))

theorem natDecimal_ne_nil (n : Nat) : natDecimal n ≠ [] := by
  unfold natDecimal natDecimalAux
  by_cases h10 : n < 10 <;> simp [h10]

theorem digitsToNat_replicate_zero (m : Nat) (s : Str) :
    digitsToNat (List.replicate m '0' ++ s) = digitsToNat s := by
  induction m with
  | zero => simp
  | succ k ih =>
    have : List.replicate (k + 1) '0' ++ s = '0' :: (List.replicate k '0' ++ s) := by
      simp [List.replicate_succ]
    rw [this]
    show List.foldl (fun a c => a * 10 + charVal c) (0 * 10 + charVal '0')
      (List.replicate k '0' ++ s) = digitsToNat s
    have h0 : 0 * 10 + charVal '0' = 0 := rfl
    rw [h0]
    exact ih

theorem digitsToNat_padNumber (n : Nat) : digitsToNat (padNumber n) = n := by
  unfold padNumber
  rw [digitsToNat_replicate_zero, digitsToNat_natDecimal]

theorem padNumber_all_digits (n : Nat) : ∀ c ∈ padNumber n, c.isDigit = true := by
  intro c hc
  unfold padNumber at hc
  rcases List.mem_append.mp hc with h | h
  · have := List.eq_of_mem_replicate h
    subst this; decide
  · exact natDecimalAux_all_digits _ _ c h

theorem padNumber_ne_nil (n : Nat) : padNumber n ≠ [] := by
  unfold padNumber
  intro h
  exact natDecimal_ne_nil n (List.append_eq_nil.mp h).2

theorem dropExact_append (p r : Str) : dropExact p (p ++ r) = some r := by
  induction p with
  | nil => rfl
  | cons c cs ih => simp [dropExact, ih]

theorem matchResultFile_resultName (n : Nat) :
    matchResultFile (resultName n) = some n := by
  have hshape : resultName n = "result-".toList ++ (padNumber n ++ ".txt".toList) := by
    simp [resultName]
  rw [matchResultFile, hshape, dropExact_append]
  have hlen : (padNumber n ++ ".txt".toList).length - 4 = (padNumber n).length := by
    simp [List.length_append]
  simp only [hlen]
  rw [List.take_left, List.drop_left]
  have hcond : (".txt".toList = ".txt".toList ∧ padNumber n ≠ [] ∧
      (padNumber n).all Char.isDigit) := by
    refine ⟨rfl, padNumber_ne_nil n, ?_⟩
    rw [List.all_eq_true]
    exact padNumber_all_digits n
  rw [if_pos hcond, digitsToNat_padNumber]

theorem takeWhile_append_all {p : Char → Bool} {l : Str} (x : Char) (r : Str)
    (h : ∀ c ∈ l, p c = true) (hx : p x = false) :
    (l ++ x :: r).takeWhile p = l := by
  induction l with
  | nil => simp [List.takeWhile, hx]
  | cons c cs ih =>
    have hc : p c = true := h c (by simp)
    simp only [List.cons_append, List.takeWhile_cons, hc, if_true]
    rw [ih (fun d hd => h d (by simp [hd]))]

theorem dropWhile_append_all {p : Char → Bool} {l : Str} (x : Char) (r : Str)
    (h : ∀ c ∈ l, p c = true) (hx : p x = false) :
    (l ++ x :: r).dropWhile p = x :: r := by
  induction l with
  | nil => simp [List.dropWhile, hx]
  | cons c cs ih =>
    have hc : p c = true := h c (by simp)
    simp only [List.cons_append, List.dropWhile_cons, hc, if_true]
    exact ih (fun d hd => h d (by simp [hd]))

theorem matchImageFile_padded (n : Nat) (ext : Str) :
    matchImageFile (padNumber n ++ '.' :: ext) = some n := by
  rw [matchImageFile]
  have hdot : Char.isDigit '.' = false := by decide
  rw [takeWhile_append_all '.' ext (padNumber_all_digits n) hdot,
    dropWhile_append_all '.' ext (padNumber_all_digits n) hdot]
  simp [padNumber_ne_nil n, digitsToNat_padNumber]

end NumeralLemmas

section MaxLemmas

theorem le_foldl_max (l : List Nat) : ∀ a : Nat, a ≤ l.foldl Nat.max a := by
  induction l with
  | nil => intro a; exact le_refl a
  | cons x xs ih =>
    intro a
    exact le_trans (Nat.le_max_left a x) (ih (Nat.max a x))

theorem foldl_max_le (l : List Nat) :
    ∀ a b : Nat, a ≤ b → (∀ x ∈ l, x ≤ b) → l.foldl Nat.max a ≤ b := by
  induction l with
  | nil => intro a b ha _; exact ha
  | cons x xs ih =>
    intro a b ha h
    exact ih _ b (Nat.max_le.mpr ⟨ha, h x (by simp)⟩) (fun y hy => h y (by simp [hy]))

theorem mem_le_foldl_max (l : List Nat) :
    ∀ (a x : Nat), x ∈ l → x ≤ l.foldl Nat.max a := by
  induction l with
  | nil => intro a x hx; simp at hx
  | cons y ys ih =>
    intro a x hx
    rcases List.mem_cons.mp hx with h | h
    · subst h
      exact le_trans (Nat.le_max_right a x) (le_foldl_max ys (Nat.max a x))
    · exact ih _ x h

end MaxLemmas

section AllocatorLemmas

theorem getLastResultFileNumber_of_range (files : List Str) (n : Nat) (hn : 0 < n)
    (hAll : ∀ k, k < n → resultName k ∈ files)
    (hBound : ∀ m ∈ files.filterMap matchResultFile, m < n) :
    getLastResultFileNumber files = n := by
  have hmem0 : resultName 0 ∈ files := hAll 0 hn
  have hfiles : files ≠ [] := List.ne_nil_of_mem hmem0
  have hmemN : n - 1 ∈ files.filterMap matchResultFile := by
    exact List.mem_filterMap.mpr
      ⟨resultName (n - 1), hAll (n - 1) (by omega), matchResultFile_resultName (n - 1)⟩
  have hnum : files.filterMap matchResultFile ≠ [] := List.ne_nil_of_mem hmemN
  have hle : (files.filterMap matchResultFile).foldl Nat.max 0 ≤ n - 1 :=
    foldl_max_le _ 0 (n - 1) (by omega) (fun x hx => by have := hBound x hx; omega)
  have hge : n - 1 ≤ (files.filterMap matchResultFile).foldl Nat.max 0 :=
    mem_le_foldl_max _ 0 (n - 1) hmemN
  rw [getLastResultFileNumber, if_neg hfiles]
  simp only [if_neg hnum]
  omega

theorem getLastResultFileNumber_of_none (files : List Str)
    (h : ∀ f ∈ files, matchResultFile f = none) :
    getLastResultFileNumber files = 0 := by
  rw [getLastResultFileNumber]
  by_cases hf : files = []
  · rw [if_pos hf]
  · rw [if_neg hf]
    rw [List.filterMap_eq_nil_iff.mpr h]
    simp

theorem getLastImageNumber_of_range (files : List Str) (n : Nat) (hn : 0 < n)
    (hAll : ∀ k, k < n → ∃ ext, padNumber k ++ '.' :: ext ∈ files)
    (hBound : ∀ m ∈ files.filterMap matchImageFile, m < n) :
    getLastImageNumber files = n := by
  obtain ⟨ext0, hmem0⟩ := hAll 0 hn
  have hfiles : files ≠ [] := List.ne_nil_of_mem hmem0
  obtain ⟨extN, hmemNfile⟩ := hAll (n - 1) (by omega)
  have hmemN : n - 1 ∈ files.filterMap matchImageFile :=
    List.mem_filterMap.mpr
      ⟨padNumber (n - 1) ++ '.' :: extN, hmemNfile, matchImageFile_padded (n - 1) extN⟩
  have hnum : files.filterMap matchImageFile ≠ [] := List.ne_nil_of_mem hmemN
  have hle : (files.filterMap matchImageFile).foldl Nat.max 0 ≤ n - 1 :=
    foldl_max_le _ 0 (n - 1) (by omega) (fun x hx => by have := hBound x hx; omega)
  have hge : n - 1 ≤ (files.filterMap matchImageFile).foldl Nat.max 0 :=
    mem_le_foldl_max _ 0 (n - 1) hmemN
  rw [getLastImageNumber, if_neg hfiles]
  simp only [if_neg hnum]
  omega

theorem getLastImageNumber_of_none (files : List Str)
    (h : ∀ f ∈ files, matchImageFile f = none) :
    getLastImageNumber files = 0 := by
  rw [getLastImageNumber]
  by_cases hf : files = []
  · rw [if_pos hf]
  · rw [if_neg hf]
    rw [List.filterMap_eq_nil_iff.mpr h]
    simp

end AllocatorLemmas

section FSLemmas

theorem fsLookup_fsErase_self (fs : FS) (p : Str) : fsLookup (fsErase fs p) p = none := by
  induction fs with
  | nil => rfl
  | cons e es ih =>
    by_cases h : e.1 == p
    · simp only [fsErase, List.filter_cons, h, Bool.not_true, if_neg (by decide : ¬false = true)]
      exact ih
    · simp only [fsErase, List.filter_cons, h, Bool.not_false, if_pos rfl, fsLookup,
        List.find?, h]
      exact ih

theorem fsLookup_fsErase_other (fs : FS) (p q : Str) (h : q ≠ p) :
    fsLookup (fsErase fs p) q = fsLookup fs q := by
  induction fs with
  | nil => rfl
  | cons e es ih =>
    by_cases hp : e.1 = p
    · have h1 : fsErase (e :: es) p = fsErase es p := by
        simp [fsErase, List.filter_cons, hp]
      have hqf : (e.1 == q) = false := by
        subst hp
        exact beq_eq_false_iff_ne.mpr (fun hqq => h hqq.symm)
      have h2 : fsLookup (e :: es) q = fsLookup es q := by
        simp [fsLookup, List.find?, hqf]
      rw [h1, h2]
      exact ih
    · have h1 : fsErase (e :: es) p = e :: fsErase es p := by
        simp [fsErase, List.filter_cons, hp]
      rw [h1]
      by_cases hq : e.1 = q
      · simp [fsLookup, List.find?, hq]
      · have hqf : (e.1 == q) = false := beq_eq_false_iff_ne.mpr hq
        simp only [fsLookup, List.find?, hqf]
        exact ih

end FSLemmas

/-!
Part 7: the claims.
-/

/-- C1, as stated, is false: with the identity step, pipeEachFiltered drops
falsy elements of the input, so on the sequence holding only the number 0
its output is empty while pipeEach returns the sequence unchanged. -/
theorem c1_counterexample :
    Job.pipeEachFiltered (fun (x : JSVal Unit) _ _ => x)
        [JSVal.prim (JSPrim.jnum 0)] () ≠
      Job.pipeEach (fun (x : JSVal Unit) _ _ => x)
        [JSVal.prim (JSPrim.jnum 0)] () := by
  decide

/-- C1 (amended): for every sequence S all of whose elements are truthy,
pipeEachFiltered with the identity step equals pipeEach with that step and
its output has the same length as S; for every S, a step that always
returns a falsy value yields the empty output sequence. -/
theorem c1_amended {σ α β : Type} (st : σ) (S : List (JSVal α)) :
    ((∀ x ∈ S, x.truthy = true) →
      Job.pipeEachFiltered (fun x _ _ => x) S st =
          Job.pipeEach (fun x _ _ => x) S st ∧
        (Job.pipeEachFiltered (fun x _ _ => x) S st).length = S.length) ∧
    (∀ f : JSVal α → σ → Nat → JSVal β, (∀ x s i, (f x s i).truthy = false) →
      Job.pipeEachFiltered f S st = []) := by
  constructor
  · intro h
    have heq : Job.pipeEachFiltered (fun x _ _ => x) S st =
        Job.pipeEach (fun x _ _ => x) S st :=
      pipeEachFilteredGo_eq_go_of_truthy _ st S 0 (fun x hx j => h x hx)
    refine ⟨heq, ?_⟩
    rw [heq]
    exact pipeEachGo_length _ st S 0
  · intro f hf
    exact pipeEachFilteredGo_falsy f st S 0 (fun x _ j => hf x st j)

/-- Witness for c1_amended at a concrete truthy sequence and a concrete
always-falsy step. -/
theorem c1_witness :
    (Job.pipeEachFiltered (fun (x : JSVal Unit) _ _ => x) [JSVal.arr []] () =
        Job.pipeEach (fun (x : JSVal Unit) _ _ => x) [JSVal.arr []] () ∧
      (Job.pipeEachFiltered (fun (x : JSVal Unit) _ _ => x)
        [JSVal.arr []] ()).length = 1) ∧
    Job.pipeEachFiltered (fun (_ : JSVal Unit) (_ : Unit) _ =>
      JSVal.prim (α := Unit) JSPrim.jnull) [JSVal.arr []] () = [] :=
  ⟨(@c1_amended Unit Unit Unit () [JSVal.arr []]).1 (by decide),
    (@c1_amended Unit Unit Unit () [JSVal.arr []]).2 _ (fun x s i => rfl)⟩

/-- C4: pipeSliced with a positive slice size k+1 and the identity step
reassembles the sequence unchanged (round-trip of batching), and on the
initializer value 1..5 with the double-each-element step at slice size 2
the pipeline produces 2,4,6,8,10. -/
theorem c4_pipeSliced_roundtrip {σ α : Type} (st : σ) (S : List α) (k : Nat) :
    Job.pipeSliced (fun w _ _ => JSVal.arr w) (k + 1) (JSVal.arr S) st =
        .ok (.arr S) ∧
    Job.run (fun _ => JSVal.arr ([1, 2, 3, 4, 5] : List Int))
        [fun d st => Job.pipeSliced
          (fun w _ _ => JSVal.arr (w.map (fun x => 2 * x))) 2 d st] () =
      .ok (.arr [2, 4, 6, 8, 10]) := by
  constructor
  · show Except.ok (JSVal.arr (Job.pipeSlicedGo (fun w _ _ => JSVal.arr w) st
      (k + 1 - 1) S.length S 0)) = Except.ok (JSVal.arr S)
    have h1 := pipeSlicedGo_eq_chunks (fun w _ _ => JSVal.arr w) st k S.length S 0
      (le_refl _)
    have h2 := chunksOff_flatMap_fst (α := α) k S.length S 0 (le_refl _)
    simp only [Nat.add_sub_cancel]
    rw [h1]
    exact congrArg (fun l => Except.ok (JSVal.arr l)) h2
  · rfl

/-- C10: pipeSliced applied to array data never errors; each window's step
result contributes its elements when it is an array and contributes nothing
otherwise (a primitive result, including null and undefined, spreads to the
empty contribution), the windows being the fixed-size decomposition of the
data in source order.  Concretely, a step returning null on the first
window of 1,2,3 at slice size 2 drops that window's elements and keeps the
rest. -/
theorem c10_pipeSliced_nonarray_windows {σ α : Type}
    (f : List α → Nat → σ → JSVal α) (st : σ) (S : List α) (k : Nat) :
    Job.pipeSliced f (k + 1) (JSVal.arr S) st =
        .ok (.arr ((Job.chunksOff k S.length S 0).flatMap
          (fun w => Job.arrElems (f w.1 w.2 st)))) ∧
    (∀ p : JSPrim, Job.arrElems (α := α) (JSVal.prim p) = []) ∧
    Job.pipeSliced
        (fun w i (_ : Unit) => if i = 0 then JSVal.prim JSPrim.jnull else JSVal.arr w)
        2 (JSVal.arr ([1, 2, 3] : List Int)) () =
      .ok (.arr [3]) := by
  refine ⟨?_, fun p => rfl, rfl⟩
  show Except.ok (JSVal.arr (Job.pipeSlicedGo f st (k + 1 - 1) S.length S 0)) = _
  simp only [Nat.add_sub_cancel]
  rw [pipeSlicedGo_eq_chunks f st k S.length S 0 (le_refl _)]

/-- C3: evidence of the divergence.  With two tabs and activeTabIndex 1,
focusPrevTab leaves the index at 1 (the source resets to the last index
whenever the decremented index is less than or equal to zero), while the
claimed wraparound (1-1) mod 2 is 0. -/
theorem c3_focusPrevTab_failing_input :
    TabCtrl.focusPrevTabM ([0, 1] : List Nat) 1 = 1 ∧ ((1 - 1) % 2 : Int) = 0 := by
  decide

/-- C9: each tab-tracking operation leaves activeTabIndex a valid index into
the current tab list, or 0 when the tab list is empty.  A click-focus event
originates from a tab that is in the current list; the close handler runs
with whatever (possibly shrunken) list the browser reports, so it assumes
only a non-negative index; the remaining operations preserve the
invariant. -/
theorem c9_activeTabIndex_invariant {τ : Type} [DecidableEq τ] (pages : List τ)
    (idx : Int) (page : τ) (focus : τ → Bool) :
    (page ∈ pages → TabCtrl.validIdx pages (TabCtrl.clickFocusM pages page)) ∧
    (0 ≤ idx → TabCtrl.validIdx pages (TabCtrl.closeHandlerM pages idx)) ∧
    (TabCtrl.validIdx pages idx →
      TabCtrl.validIdx pages (TabCtrl.focusNextTabM pages idx)) ∧
    (TabCtrl.validIdx pages idx →
      TabCtrl.validIdx pages (TabCtrl.focusPrevTabM pages idx)) ∧
    (TabCtrl.validIdx pages idx →
      TabCtrl.validIdx pages (TabCtrl.getActiveTabM focus pages idx).1) := by
  refine ⟨?_, ?_, ?_, ?_, ?_⟩
  · intro hmem
    have hlen : 0 < pages.length := List.length_pos.mpr (List.ne_nil_of_mem hmem)
    have hidx : pages.findIdx (fun t => decide (t = page)) < pages.length :=
      List.findIdx_lt_length_of_exists ⟨page, hmem, by simp⟩
    right
    unfold TabCtrl.clickFocusM
    constructor
    · apply le_min
      · exact_mod_cast Nat.zero_le _
      · omega
    · exact lt_of_le_of_lt (min_le_right _ _) (by omega)
  · intro h0
    unfold TabCtrl.closeHandlerM TabCtrl.validIdx
    by_cases hlen : pages.length = 0
    · left
      simp [hlen, List.length_eq_zero.mp hlen]
    · rw [if_neg hlen]
      by_cases hge : (pages.length : Int) ≤ idx
      · rw [if_pos hge]; right; constructor <;> omega
      · rw [if_neg hge]; right; constructor <;> omega
  · intro h
    unfold TabCtrl.focusNextTabM
    rcases h with ⟨hnil, hzero⟩ | ⟨h0, hlt⟩
    · subst hzero
      simp [hnil, TabCtrl.validIdx]
    · have hlen : pages.length ≠ 0 := by omega
      rw [if_neg hlen]
      by_cases hge : (pages.length : Int) ≤ idx + 1
      · rw [if_pos hge]; right; constructor <;> omega
      · rw [if_neg hge]; right; constructor <;> omega
  · intro h
    unfold TabCtrl.focusPrevTabM
    rcases h with ⟨hnil, hzero⟩ | ⟨h0, hlt⟩
    · subst hzero
      simp [hnil, TabCtrl.validIdx]
    · have hlen : pages.length ≠ 0 := by omega
      rw [if_neg hlen]
      by_cases hle : idx - 1 ≤ 0
      · rw [if_pos hle]; right; constructor <;> omega
      · rw [if_neg hle]; right; constructor <;> omega
  · intro h
    unfold TabCtrl.getActiveTabM
    rcases h with ⟨hnil, hzero⟩ | ⟨h0, hlt⟩
    · subst hzero
      simp [hnil, TabCtrl.validIdx]
    · have hlen : pages.length ≠ 0 := by omega
      rw [if_neg hlen, if_pos hlt, if_pos h0]
      right
      exact ⟨h0, hlt⟩

/-- Witness for c9_activeTabIndex_invariant on a concrete two-tab session. -/
theorem c9_witness :
    TabCtrl.validIdx [0, 1] (TabCtrl.clickFocusM ([0, 1] : List Nat) 0) ∧
    TabCtrl.validIdx [0, 1] (TabCtrl.closeHandlerM ([0, 1] : List Nat) 5) ∧
    TabCtrl.validIdx [0, 1] (TabCtrl.focusNextTabM ([0, 1] : List Nat) 1) ∧
    TabCtrl.validIdx [0, 1] (TabCtrl.focusPrevTabM ([0, 1] : List Nat) 0) ∧
    TabCtrl.validIdx [0, 1]
      (TabCtrl.getActiveTabM (fun _ => false) ([0, 1] : List Nat) 1).1 := by
  obtain ⟨h1, h2, h3, h4, h5⟩ :=
    c9_activeTabIndex_invariant ([0, 1] : List Nat) 1 0 (fun _ => false)
  refine ⟨?_, ?_, h3 (by decide), ?_, h5 (by decide)⟩
  · exact (c9_activeTabIndex_invariant ([0, 1] : List Nat) 1 0 (fun _ => false)).1
      (by decide)
  · exact (c9_activeTabIndex_invariant ([0, 1] : List Nat) 5 0 (fun _ => false)).2.1
      (by decide)
  · exact (c9_activeTabIndex_invariant ([0, 1] : List Nat) 0 0 (fun _ => false)).2.2.2.1
      (by decide)

/-- C6: the save command rejects a duplicate URL or an empty capture buffer
with no write, no append and no state change; otherwise (no collision at
the current counter value, I/O succeeding) it writes the artifact at the
current number, appends the URL to the index file, adds the URL to the
duplicate set and increments the counter. -/
theorem c6_saveCmd_guards (st : SnSState) (fs : FS) (url clip : Str)
    (inputs : List Str) (writeOk appendOk : Bool) :
    ((st.savedLinks.contains url = true ∨ clip = [] ∨ trim clip = []) →
      saveCmd st fs url clip inputs writeOk appendOk = (st, fs, [])) ∧
    (st.savedLinks.contains url = false → ¬(clip = [] ∨ trim clip = []) →
      fsExists fs (resultPath st.dataDir st.savedLinkCount) = false →
      saveCmd st fs url clip inputs true true =
        (⟨url :: st.savedLinks, st.savedLinkCount + 1, st.dataDir⟩,
          fsAppend (fsWrite fs (resultPath st.dataDir st.savedLinkCount)
            (saveContent st.savedLinkCount url clip)) linksPath (url ++ ['\n']),
          [.write (resultPath st.dataDir st.savedLinkCount)
              (saveContent st.savedLinkCount url clip) true,
            .append linksPath (url ++ ['\n']) true])) := by
  constructor
  · intro h
    by_cases hc : st.savedLinks.contains url = true
    · unfold saveCmd
      rw [if_pos hc]
    · have hclip : clip = [] ∨ trim clip = [] := by
        rcases h with h | h | h
        · exact absurd h hc
        · exact Or.inl h
        · exact Or.inr h
      unfold saveCmd
      rw [if_neg hc, if_pos hclip]
  · intro hc hclip hfree
    have hne : ¬(st.savedLinks.contains url = true) := by rw [hc]; simp
    unfold saveCmd
    rw [if_neg hne, if_neg hclip]
    unfold getManualFilePath
    rw [if_neg (by simp [hfree])]
    simp only [if_neg (by decide : ¬(true = false)), hc]
    rfl

/-- The possible I/O traces of one execution of the save command: nothing
issued, a failed artifact write, or a successful artifact write followed by
the index append. -/
theorem saveCmd_trace_shape (st : SnSState) (fs : FS) (url clip : Str)
    (inputs : List Str) (writeOk appendOk : Bool) :
    (saveCmd st fs url clip inputs writeOk appendOk).2.2 = [] ∨
    (∃ p c, (saveCmd st fs url clip inputs writeOk appendOk).2.2 =
      [.write p c false]) ∨
    (∃ p c q d ok3, (saveCmd st fs url clip inputs writeOk appendOk).2.2 =
      [.write p c true, .append q d ok3]) := by
  by_cases hc : st.savedLinks.contains url = true
  · left
    unfold saveCmd
    rw [if_pos hc]
  · by_cases hb : clip = [] ∨ trim clip = []
    · left
      unfold saveCmd
      rw [if_neg hc, if_pos hb]
    · rcases hm : getManualFilePath fs st.dataDir st.savedLinkCount inputs with _ | ⟨p, n⟩
      · left
        unfold saveCmd
        rw [if_neg hc, if_neg hb, hm]
      · by_cases hw : writeOk = false
        · right; left
          refine ⟨p, saveContent n url clip, ?_⟩
          unfold saveCmd
          rw [if_neg hc, if_neg hb, hm]
          simp [hw]
        · by_cases ha : appendOk = false
          · right; right
            refine ⟨p, saveContent n url clip, linksPath, url ++ ['\n'], false, ?_⟩
            unfold saveCmd
            rw [if_neg hc, if_neg hb, hm]
            simp [hw, ha]
          · right; right
            refine ⟨p, saveContent n url clip, linksPath, url ++ ['\n'], true, ?_⟩
            unfold saveCmd
            rw [if_neg hc, if_neg hb, hm]
            simp [hw, ha]

/-- Witness for c6_saveCmd_guards: a rejected duplicate save and a successful
fresh save on concrete session states. -/
theorem c6_witness :
    saveCmd ⟨["u1".toList], 0, "data".toList⟩ [] ("u1".toList) ("x".toList) [] true true =
      (⟨["u1".toList], 0, "data".toList⟩, [], []) ∧
    saveCmd ⟨["u1".toList], 0, "data".toList⟩ [] ("u2".toList) ("hi".toList) [] true true =
      (⟨"u2".toList :: ["u1".toList], 0 + 1, "data".toList⟩,
        fsAppend (fsWrite [] (resultPath ("data".toList) 0)
          (saveContent 0 ("u2".toList) ("hi".toList))) linksPath ("u2".toList ++ ['\n']),
        [.write (resultPath ("data".toList) 0)
            (saveContent 0 ("u2".toList) ("hi".toList)) true,
          .append linksPath ("u2".toList ++ ['\n']) true]) :=
  ⟨(c6_saveCmd_guards ⟨["u1".toList], 0, "data".toList⟩ [] ("u1".toList) ("x".toList)
      [] true true).1 (Or.inl (by decide)),
    (c6_saveCmd_guards ⟨["u1".toList], 0, "data".toList⟩ [] ("u2".toList) ("hi".toList)
      [] true true).2 (by decide) (by decide) (by decide)⟩

/-- C7: in every execution of the save command, an index append appears in the
I/O trace only after an earlier successful artifact write; an aborted write
leaves no append in the trace. -/
theorem c7_append_only_after_write (st : SnSState) (fs : FS) (url clip : Str)
    (inputs : List Str) (writeOk appendOk : Bool) (i : Nat) (p c : Str) (ok : Bool)
    (h : ((saveCmd st fs url clip inputs writeOk appendOk).2.2).get? i =
      some (.append p c ok)) :
    ∃ j, j < i ∧ ∃ q d,
      ((saveCmd st fs url clip inputs writeOk appendOk).2.2).get? j =
        some (.write q d true) := by
  rcases saveCmd_trace_shape st fs url clip inputs writeOk appendOk with
    htr | ⟨q, d, htr⟩ | ⟨q, d, q2, d2, ok3, htr⟩
  · rw [htr] at h
    simp at h
  · rw [htr] at h
    match i with
    | 0 => simp at h
    | Nat.succ m => simp at h
  · rw [htr] at h
    match i with
    | 0 => simp at h
    | 1 => exact ⟨0, by omega, q, d, by rw [htr]; rfl⟩
    | Nat.succ (Nat.succ m) => simp at h

/-- Witness for c7_append_only_after_write on a concrete successful save. -/
theorem c7_witness :
    ∃ j, j < 1 ∧ ∃ q d,
      ((saveCmd ⟨[], 0, "d".toList⟩ [] ("u".toList) ("x".toList) [] true true).2.2).get? j =
        some (.write q d true) :=
  c7_append_only_after_write ⟨[], 0, "d".toList⟩ [] ("u".toList) ("x".toList) [] true true
    1 linksPath ("u".toList ++ ['\n']) true (by decide)

/-- C8: restarting the allocator against a directory holding the artifacts
numbered 0..n-1 (and no matching filename with a higher number) makes the
next assigned number exactly n, and a directory with no matching filename
starts the counter at 0 - for the text-artifact allocator and the image
allocator alike. -/
theorem c8_allocator_recovery (files imgFiles : List Str) (n m : Nat) :
    (0 < n → (∀ k, k < n → resultName k ∈ files) →
      (∀ x ∈ files.filterMap matchResultFile, x < n) →
      getLastResultFileNumber files = n) ∧
    ((∀ f ∈ files, matchResultFile f = none) → getLastResultFileNumber files = 0) ∧
    (0 < m → (∀ k, k < m → ∃ ext, padNumber k ++ '.' :: ext ∈ imgFiles) →
      (∀ x ∈ imgFiles.filterMap matchImageFile, x < m) →
      getLastImageNumber imgFiles = m) ∧
    ((∀ f ∈ imgFiles, matchImageFile f = none) → getLastImageNumber imgFiles = 0) :=
  ⟨fun hn hAll hBound => getLastResultFileNumber_of_range files n hn hAll hBound,
    fun h => getLastResultFileNumber_of_none files h,
    fun hm hAll hBound => getLastImageNumber_of_range imgFiles m hm hAll hBound,
    fun h => getLastImageNumber_of_none imgFiles h⟩

/-- Witness for c8_allocator_recovery on concrete one-artifact directories and
concrete non-matching directories. -/
theorem c8_witness :
    getLastResultFileNumber [resultName 0] = 1 ∧
    getLastResultFileNumber ["notes.md".toList] = 0 ∧
    getLastImageNumber [padNumber 0 ++ '.' :: "jpg".toList] = 1 ∧
    getLastImageNumber ["readme".toList] = 0 :=
  ⟨(c8_allocator_recovery [resultName 0] [] 1 1).1 (by decide)
      (fun k hk => by rw [Nat.lt_one_iff.mp hk]; decide) (by decide),
    (c8_allocator_recovery ["notes.md".toList] [] 1 1).2.1 (by decide),
    (c8_allocator_recovery [] [padNumber 0 ++ '.' :: "jpg".toList] 1 1).2.2.1 (by decide)
      (fun k hk => by rw [Nat.lt_one_iff.mp hk]; exact ⟨"jpg".toList, by decide⟩)
      (by decide),
    (c8_allocator_recovery [] ["readme".toList] 1 1).2.2.2 (by decide)⟩

/-- C2: evidence of the divergence at a concrete session.  Undo immediately
after saving u2 restores the duplicate set and the counter, deletes exactly
the artifact the save wrote and leaves the other artifact untouched, but
the index file ends up holding the pretty-printed JSON array of the
remaining lines (saveToTXT stringifies its non-string argument) instead of
its pre-save byte content. -/
theorem c2_undo_after_save_failing_input :
    let st0 : SnSState := ⟨["u1".toList], 1, "data".toList⟩
    let fs0 : FS := [(linksPath, "u1\n".toList),
      (resultPath ("data".toList) 0, "# 0: u1\n\nhello".toList)]
    let saved := saveCmd st0 fs0 ("u2".toList) ("world".toList) [] true true
    let undone := undoCmd saved.1 saved.2.1
    undone.1 = st0 ∧
    fsLookup saved.2.1 (resultPath ("data".toList) 1) =
      some (saveContent 1 ("u2".toList) ("world".toList)) ∧
    fsLookup undone.2 (resultPath ("data".toList) 1) = none ∧
    fsLookup undone.2 (resultPath ("data".toList) 0) =
      fsLookup fs0 (resultPath ("data".toList) 0) ∧
    fsLookup fs0 linksPath = some ("u1\n".toList) ∧
    fsLookup undone.2 linksPath = some ("[\n  \"u1\"\n]".toList) := by
  decide

/-- C5 (amended): verification before deletion holds for the text-capture undo
only.  There, the artifact of the decremented counter is deleted exactly
when the URL recorded in its own header matches the last index line, and
on a mismatch the deletion is aborted with only the index-level records
(index file line, duplicate-set entry, counter) rolled back.  The
image-mode undo performs no such verification: it deletes the image file
named inside the metadata file, and the metadata file itself,
unconditionally. -/
theorem c5_amended (st : SnSState) (fs : FS) (content lastUrl fc : Str)
    (ist : ImgState) (ifs : FS) (mc seg0 seg : Str) (segs : List Str) :
    (st.savedLinkCount ≠ 0 → fsLookup fs linksPath = some content →
      (nonBlankLines content).getLast? = some lastUrl →
      fsLookup (saveToTXT fs (.inr (nonBlankLines content).dropLast) linksPath)
          (resultPath st.dataDir (st.savedLinkCount - 1)) = some fc →
      ((parseHeaderUrl (firstLineOf fc) ≠ some lastUrl →
        undoCmd st fs =
          (⟨st.savedLinks.filter (fun u => !(u == lastUrl)), st.savedLinkCount - 1,
              st.dataDir⟩,
            saveToTXT fs (.inr (nonBlankLines content).dropLast) linksPath) ∧
        fsLookup (undoCmd st fs).2 (resultPath st.dataDir (st.savedLinkCount - 1)) =
          some fc) ∧
      (parseHeaderUrl (firstLineOf fc) = some lastUrl →
        undoCmd st fs =
          (⟨st.savedLinks.filter (fun u => !(u == lastUrl)), st.savedLinkCount - 1,
              st.dataDir⟩,
            fsErase (saveToTXT fs (.inr (nonBlankLines content).dropLast) linksPath)
              (resultPath st.dataDir (st.savedLinkCount - 1))) ∧
        fsLookup (undoCmd st fs).2 (resultPath st.dataDir (st.savedLinkCount - 1)) =
          none))) ∧
    (ist.savedImageCount ≠ 0 → fsLookup ifs (metaPathOf ist) = some mc →
      2 ≤ (splitOnChar '\n' mc).length →
      splitOnChar '/' (trim (((splitOnChar '\n' mc).get? 1).getD [])) =
        seg0 :: seg :: segs →
      imageUndoCmd ist ifs =
        (⟨ist.savedImageCount - 1, ist.imagesDir, ist.imgMetaDir⟩,
          fsErase (fsErase ifs (ist.imagesDir ++ '/' :: seg)) (metaPathOf ist)) ∧
      fsLookup (imageUndoCmd ist ifs).2 (ist.imagesDir ++ '/' :: seg) = none) := by
  constructor
  · intro h0 h1 h2 h4
    constructor
    · intro h5
      rcases hp : parseHeaderUrl (firstLineOf fc) with _ | u
      · have he : undoCmd st fs =
            (⟨st.savedLinks.filter (fun u => !(u == lastUrl)), st.savedLinkCount - 1,
                st.dataDir⟩,
              saveToTXT fs (.inr (nonBlankLines content).dropLast) linksPath) := by
          simp only [undoCmd, if_neg h0, h1, h2, h4, hp]
        refine ⟨he, ?_⟩
        rw [he]
        exact h4
      · have hu : ¬(u = lastUrl) := fun heq => h5 (by rw [hp, heq])
        have he : undoCmd st fs =
            (⟨st.savedLinks.filter (fun u => !(u == lastUrl)), st.savedLinkCount - 1,
                st.dataDir⟩,
              saveToTXT fs (.inr (nonBlankLines content).dropLast) linksPath) := by
          simp only [undoCmd, if_neg h0, h1, h2, h4, hp, if_neg hu]
        refine ⟨he, ?_⟩
        rw [he]
        exact h4
    · intro h5
      have he : undoCmd st fs =
          (⟨st.savedLinks.filter (fun u => !(u == lastUrl)), st.savedLinkCount - 1,
              st.dataDir⟩,
            fsErase (saveToTXT fs (.inr (nonBlankLines content).dropLast) linksPath)
              (resultPath st.dataDir (st.savedLinkCount - 1))) := by
        simp only [undoCmd, if_neg h0, h1, h2, h4, h5, if_pos rfl]
        rw [if_pos trivial]
      refine ⟨he, ?_⟩
      rw [he]
      exact fsLookup_fsErase_self _ _
  · intro h0 h1 h3 h4
    have he : imageUndoCmd ist ifs =
        (⟨ist.savedImageCount - 1, ist.imagesDir, ist.imgMetaDir⟩,
          fsErase (fsErase ifs (ist.imagesDir ++ '/' :: seg)) (metaPathOf ist)) := by
      simp only [imageUndoCmd, if_neg h0, h1]
      rw [if_neg (by omega : ¬(splitOnChar '\n' mc).length < 2)]
      simp only [h4]
    refine ⟨he, ?_⟩
    rw [he]
    by_cases heq : ist.imagesDir ++ '/' :: seg = metaPathOf ist
    · rw [heq, fsLookup_fsErase_self]
    · rw [fsLookup_fsErase_other _ _ _ heq]
      exact fsLookup_fsErase_self _ _

/-- C5, as stated, is false for image artifacts: at this concrete session the
image-mode undo deletes the image file named inside the metadata file (an
image whose number, 99999, is not even the one being undone) although no
verification marker was compared against any record - the deletion is not
aborted and not preceded by any check. -/
theorem c5_counterexample :
    let ist : ImgState := ⟨1, "images".toList, "img-meta".toList⟩
    let ifs : FS := [(metaPathOf ist, "# 0. urlA\nimages/99999.jpg\ncap".toList),
      ("images".toList ++ '/' :: "99999.jpg".toList, "IMG5".toList)]
    fsLookup ifs ("images".toList ++ '/' :: "99999.jpg".toList) =
        some ("IMG5".toList) ∧
    fsLookup (imageUndoCmd ist ifs).2 ("images".toList ++ '/' :: "99999.jpg".toList) =
        none ∧
    (imageUndoCmd ist ifs).1.savedImageCount = 0 := by
  decide

/-- Witness for c5_amended: the text-capture undo on a concrete matching
artifact (deleted), on a concrete mismatching artifact (kept), and the
image-mode undo on a concrete metadata file. -/
theorem c5_witness :
    (undoCmd ⟨["u2".toList, "u1".toList], 2, "data".toList⟩
        [(linksPath, "u1\nu2\n".toList),
          (resultPath ("data".toList) 1, "# 1: u2\n\nworld".toList),
          (resultPath ("data".toList) 0, "# 0: u1\n\nhello".toList)] =
      (⟨(["u2".toList, "u1".toList]).filter (fun u => !(u == "u2".toList)), 2 - 1,
          "data".toList⟩,
        fsErase (saveToTXT
            [(linksPath, "u1\nu2\n".toList),
              (resultPath ("data".toList) 1, "# 1: u2\n\nworld".toList),
              (resultPath ("data".toList) 0, "# 0: u1\n\nhello".toList)]
            (.inr (nonBlankLines ("u1\nu2\n".toList)).dropLast) linksPath)
          (resultPath ("data".toList) (2 - 1)))) ∧
    (undoCmd ⟨["u2".toList, "u1".toList], 2, "data".toList⟩
        [(linksPath, "u1\nu2\n".toList),
          (resultPath ("data".toList) 1, "# 1: u3\n\nworld".toList)] =
      (⟨(["u2".toList, "u1".toList]).filter (fun u => !(u == "u2".toList)), 2 - 1,
          "data".toList⟩,
        saveToTXT
          [(linksPath, "u1\nu2\n".toList),
            (resultPath ("data".toList) 1, "# 1: u3\n\nworld".toList)]
          (.inr (nonBlankLines ("u1\nu2\n".toList)).dropLast) linksPath)) ∧
    fsLookup (imageUndoCmd ⟨1, "images".toList, "img-meta".toList⟩
        [(metaPathOf ⟨1, "images".toList, "img-meta".toList⟩,
          "# 0. urlA\nimages/00000.jpg\ncap".toList),
          ("images".toList ++ '/' :: "00000.jpg".toList, "IMG0".toList)]).2
      ("images".toList ++ '/' :: "00000.jpg".toList) = none :=
  ⟨((c5_amended ⟨["u2".toList, "u1".toList], 2, "data".toList⟩
      [(linksPath, "u1\nu2\n".toList),
        (resultPath ("data".toList) 1, "# 1: u2\n\nworld".toList),
        (resultPath ("data".toList) 0, "# 0: u1\n\nhello".toList)]
      ("u1\nu2\n".toList) ("u2".toList) ("# 1: u2\n\nworld".toList)
      ⟨1, [], []⟩ [] [] [] [] []).1 (by decide) (by decide) (by decide) (by decide)).2
        (by decide) |>.1,
    ((c5_amended ⟨["u2".toList, "u1".toList], 2, "data".toList⟩
      [(linksPath, "u1\nu2\n".toList),
        (resultPath ("data".toList) 1, "# 1: u3\n\nworld".toList)]
      ("u1\nu2\n".toList) ("u2".toList) ("# 1: u3\n\nworld".toList)
      ⟨1, [], []⟩ [] [] [] [] []).1 (by decide) (by decide) (by decide) (by decide)).1
        (by decide) |>.1,
    ((c5_amended ⟨[], 0, []⟩ [] [] [] []
      ⟨1, "images".toList, "img-meta".toList⟩
      [(metaPathOf ⟨1, "images".toList, "img-meta".toList⟩,
        "# 0. urlA\nimages/00000.jpg\ncap".toList),
        ("images".toList ++ '/' :: "00000.jpg".toList, "IMG0".toList)]
      ("# 0. urlA\nimages/00000.jpg\ncap".toList) ("images".toList)
      ("00000.jpg".toList) []).2 (by decide) (by decide) (by decide) (by decide)).2⟩
